import Mathlib

/-!
# ORJI-AUCTION: the auction lifecycle, the bidding engine and registration

A shallow embedding of the auction functions of `src/orji-auction/app.js`
(`getAuctions`, `saveAuctions`, `createAuction`, `placeBid`, `endAuction`,
`sweepEnded`), of the submit handler of the create-auction form, and of the
user functions (`seedIfEmpty`, `register`, `login`, `logout`), with theorems
about them.

Modelling decisions, all taken from the source:

* The `auctions` key of `localStorage` holds JSON. A numeric field read back
  from it is a finite number or `null`, because `JSON.stringify` writes the
  non-finite numbers `NaN`, `Infinity` and `-Infinity` as `null`.
* A JavaScript number is `NaN`, an infinity, or a finite value. The code only
  compares and stores numbers, it never does arithmetic on them, so a finite
  value is carried as a rational: comparison of finite doubles is comparison
  of the rationals they denote, and the JSON round trip of a finite double is
  exact.
* `Date.now()` is an argument (`now`) of every function that reads the clock.
* `new Date(s).getTime()` is a platform function; it is a parameter
  `parseDate`, with `none` standing for `NaN` (an unparseable date).
* The calls to `renderAuctions()` and `console.log` do not touch the
  `auctions` key and are left out.
* `String.prototype.toLowerCase` is a platform function; it is a parameter
  `toLowerCase`, and the facts about it that a proof uses are hypotheses.
* The `length` of a string counts UTF-16 code units.
-/

namespace OrjiAuction

/-! ## Numbers -/

/-- A JavaScript number value. -/
inductive JSNumber where
  | nan
  | negInf
  | fin (q : ℚ)
  | posInf
  deriving DecidableEq

namespace JSNumber

/-- The global `isNaN` on a number. -/
def isNaN : JSNumber → Bool
  | nan => true
  | _ => false

/-- The relational operator `x <= y` on numbers: false when either side is
`NaN`. -/
def le : JSNumber → JSNumber → Bool
  | nan, _ => false
  | _, nan => false
  | negInf, _ => true
  | _, posInf => true
  | fin a, fin b => decide (a ≤ b)
  | fin _, negInf => false
  | posInf, fin _ => false
  | posInf, negInf => false

/-- The expression `x || 0` on a number: `NaN` and zero are falsy. -/
def orZero : JSNumber → JSNumber
  | nan => fin 0
  | x => x

/-- What a number becomes after `JSON.stringify` and `JSON.parse`: a finite
number is kept, a non-finite one is written as `null`. -/
def toJSON : JSNumber → Option ℚ
  | fin q => some q
  | _ => none

end JSNumber

/-- `ToNumber` on a numeric field read back from JSON: `null` converts to
zero. -/
def toNumber (v : Option ℚ) : JSNumber :=
  match v with
  | none => JSNumber.fin 0
  | some q => JSNumber.fin q

/-! ## Data model -/

/-- The `status` field: the strings `'active'` and `'ended'` (the spec's
"closed"). -/
inductive Status where
  | active
  | ended
  deriving DecidableEq

/-- One element of `auction.bids`: `{by, amount, time}`. -/
structure Bid where
  /-- The field `by`: the bidder's email. -/
  bidder : String
  amount : Option ℚ
  time : Int
  deriving DecidableEq

/-- A stored auction record, with the fields `createAuction` writes. -/
structure Auction where
  id : Int
  title : String
  description : String
  image : String
  startDate : String
  /-- Absent (`undefined` or `null`) is `none`. -/
  endDate : Option String
  startingPrice : Option ℚ
  currentPrice : Option ℚ
  /-- The value `null` is `none`. -/
  highestBidder : Option String
  bids : List Bid
  status : Status
  deriving DecidableEq

/-- The argument `data` of `createAuction`. -/
structure AuctionData where
  title : String
  description : String
  image : String
  startDate : String
  endDate : Option String
  startingPrice : JSNumber
  deriving DecidableEq

/-- The value under the `auctions` key of `localStorage`: `none` when the key
is missing or does not parse. -/
abbrev Storage := Option (List Auction)

/-- The function `getAuctions`: `storage.get('auctions')||[]`. -/
def getAuctions (s : Storage) : List Auction :=
  s.getD []

/-- The function `saveAuctions`: `storage.set('auctions', auctions)`. -/
def saveAuctions (auctions : List Auction) : Storage :=
  some auctions

/-- In-place update of the element `Array.prototype.find` returns: the first
element satisfying `p` is replaced by its image under `f`, every other element
and the order are kept. -/
def updateFirst (p : Auction → Bool) (f : Auction → Auction) : List Auction → List Auction
  | [] => []
  | a :: rest => if p a then f a :: rest else a :: updateFirst p f rest

/-! ## Operations -/

deriving instance DecidableEq for Except

/-- The function `createAuction`, at clock value `now`. -/
def createAuction (s : Storage) (data : AuctionData) (now : Int) : Storage :=
  let auctions := getAuctions s
  let id := now
  saveAuctions
    ({ id := id
       title := data.title
       description := data.description
       image := data.image
       startDate := data.startDate
       endDate := data.endDate
       startingPrice := data.startingPrice.orZero.toJSON
       currentPrice := data.startingPrice.orZero.toJSON
       highestBidder := none
       bids := []
       status := Status.active } :: auctions)

/-- The errors `placeBid` throws, named as in the spec's taxonomy. -/
inductive BidError where
  /-- The error 'Auction not found'. -/
  | notFound
  /-- The error 'This auction has ended'. -/
  | auctionClosed
  /-- The error 'Invalid bid amount'. -/
  | invalidAmount
  /-- The error 'Bid must be higher than ₦(current price)'. -/
  | bidTooLow (currentPrice : ℚ)
  /-- The `TypeError` of calling `toLocaleString` on `null`. -/
  | typeError
  deriving DecidableEq

/-- The record `placeBid` leaves in place of `auction` once the array is
saved. -/
def applyBid (userEmail : String) (amount : JSNumber) (now : Int) (auction : Auction) : Auction :=
  { auction with
    currentPrice := amount.toJSON
    highestBidder := some userEmail
    bids := auction.bids ++ [{ bidder := userEmail, amount := amount.toJSON, time := now }] }

/-- The function `placeBid`, at clock value `now`: how the call ends (a normal
return or the error thrown) and the storage afterwards. Every `throw` comes
before the first assignment, so a call that throws leaves the storage as it
was. -/
def placeBid (s : Storage) (auctionId : Int) (userEmail : String) (amount : JSNumber)
    (now : Int) : Except BidError Unit × Storage :=
  let auctions := getAuctions s
  match auctions.find? (fun a => a.id == auctionId) with
  | none => (Except.error BidError.notFound, s)
  | some auction =>
    if auction.status ≠ Status.active then (Except.error BidError.auctionClosed, s)
    else if amount.isNaN || amount.le (JSNumber.fin 0) then
      (Except.error BidError.invalidAmount, s)
    else if amount.le (toNumber auction.currentPrice) then
      match auction.currentPrice with
      | none => (Except.error BidError.typeError, s)
      | some p => (Except.error (BidError.bidTooLow p), s)
    else
      (Except.ok (), saveAuctions
        (updateFirst (fun a => a.id == auctionId) (applyBid userEmail amount now) auctions))

/-- The function `endAuction`: the returned flag and the storage afterwards. -/
def endAuction (s : Storage) (auctionId : Int) : Bool × Storage :=
  let auctions := getAuctions s
  match auctions.find? (fun a => a.id == auctionId) with
  | some _ =>
    (true, saveAuctions
      (updateFirst (fun a => a.id == auctionId) (fun a => { a with status := Status.ended })
        auctions))
  | none => (false, s)

/-- The test of the sweeper's loop body:
`a.status==='active' && a.endDate && now > new Date(a.endDate).getTime()`. -/
def isExpired (parseDate : String → Option Int) (now : Int) (a : Auction) : Bool :=
  a.status == Status.active &&
    (match a.endDate with
     | none => false
     | some e => e != "" &&
        (match parseDate e with
         | none => false
         | some t => decide (now > t)))

/-- The function `sweepEnded`, at clock value `now`: the array is saved only
when some auction changed. -/
def sweepEnded (parseDate : String → Option Int) (s : Storage) (now : Int) : Storage :=
  let auctions := getAuctions s
  let swept := auctions.map
    (fun a => if isExpired parseDate now a then { a with status := Status.ended } else a)
  let changed := auctions.any (isExpired parseDate now)
  if changed then saveAuctions swept else s

/-- A sample auction used in examples. -/
def sampleAuction : Auction :=
  { id := 1, title := "Laptop", description := "", image := "", startDate := "2024-01-01",
    endDate := some "2024-01-02", startingPrice := some 1000, currentPrice := some 1000,
    highestBidder := none, bids := [], status := Status.active }

/-! ## Runs of operations -/

/-- One call into the engine: the four functions that write the `auctions`
key, each with its arguments and, where it reads the clock, the clock value. -/
inductive Op where
  | createAuction (data : AuctionData) (now : Int)
  | placeBid (auctionId : Int) (userEmail : String) (amount : JSNumber) (now : Int)
  | endAuction (auctionId : Int)
  | sweepEnded (now : Int)
  deriving DecidableEq

/-- The storage after one call. A `placeBid` that throws leaves it as it was. -/
def Op.apply (parseDate : String → Option Int) (s : Storage) : Op → Storage
  | Op.createAuction data now => OrjiAuction.createAuction s data now
  | Op.placeBid auctionId userEmail amount now =>
    (OrjiAuction.placeBid s auctionId userEmail amount now).2
  | Op.endAuction auctionId => (OrjiAuction.endAuction s auctionId).2
  | Op.sweepEnded now => OrjiAuction.sweepEnded parseDate s now

/-- The storage after a sequence of calls, made in list order. -/
def run (parseDate : String → Option Int) (s : Storage) (ops : List Op) : Storage :=
  ops.foldl (Op.apply parseDate) s

/-- The record `a2` is a later state of the record `a1` in which a closed
status has been kept. -/
def StaysClosed (a1 a2 : Auction) : Prop :=
  a2.id = a1.id ∧ (a1.status = Status.ended → a2.status = Status.ended)

/-- The call is not a bid of `Infinity`. -/
def Op.finiteBid : Op → Prop
  | Op.placeBid _ _ amount _ => amount ≠ JSNumber.posInf
  | _ => True

/-- The price and bidder of an auction agree with its bids: with no bid the
price is the starting price and there is no highest bidder; otherwise the last
bid has a finite amount, which is the current price and is strictly greater
than the amount of every earlier bid, and its bidder is the highest bidder. -/
def PriceInv (a : Auction) : Prop :=
  (a.bids = [] ∧ a.highestBidder = none ∧ a.currentPrice = a.startingPrice) ∨
  (∃ earlier last q, a.bids = earlier ++ [last] ∧ last.amount = some q ∧
    a.currentPrice = some q ∧ a.highestBidder = some last.bidder ∧
    ∀ b ∈ earlier, ∃ r, b.amount = some r ∧ r < q)

/-- The argument of `createAuction` used in examples: starting price 1000. -/
def sampleData : AuctionData :=
  { title := "Laptop", description := "", image := "", startDate := "2024-01-01",
    endDate := some "2024-01-02", startingPrice := JSNumber.fin 1000 }

/-- A date parser used in examples: every string denotes the time 100. -/
def sampleParse (_ : String) : Option Int :=
  some 100

/-! ## The create-auction form -/

/-- The warnings the submit handler of the create-auction form shows before it
returns without calling `createAuction`: 'Please enter a title', 'Please set an
end time', 'Starting price must be greater than 0'. -/
inductive FormWarning where
  | title
  | endTime
  | startingPrice
  deriving DecidableEq

/-- Truthiness of `data.endDate`: absent and the empty string are falsy. -/
def hasEndDate (endDate : Option String) : Bool :=
  match endDate with
  | none => false
  | some e => e != ""

/-- The submit handler of `#create-auction-form` in `initAdminDashboard`, from
the point where the fields have been read: `fields` holds the trimmed title,
description and image, the start date, the value of the end-date field and
`Number(...)` of the price field. The result is the warning shown, if any, and
the storage afterwards. -/
def submitCreateAuction (s : Storage) (fields : AuctionData) (now : Int) :
    Option FormWarning × Storage :=
  let data : AuctionData := { fields with startingPrice := fields.startingPrice.orZero }
  if data.title = "" then (some FormWarning.title, s)
  else if !hasEndDate data.endDate then (some FormWarning.endTime, s)
  else if data.startingPrice.le (JSNumber.fin 0) then (some FormWarning.startingPrice, s)
  else (none, createAuction s data now)

/-- The fields of an empty create-auction form whose price field reads 0. -/
def emptyData : AuctionData :=
  { title := "", description := "", image := "", startDate := "2024-01-01", endDate := none,
    startingPrice := JSNumber.fin 0 }

/-! ## Users and sessions -/

/-- The `role` field: the strings `'admin'` and `'user'` (the spec's
"standard"). -/
inductive Role where
  | admin
  | user
  deriving DecidableEq

/-- A record of the `users` array: `{id, email, password, role}`. -/
structure User where
  id : Int
  email : String
  password : String
  role : Role
  deriving DecidableEq

/-- The record under `currentUser`, also what `register` and `login` return:
`{id, email, role}`. -/
structure Session where
  id : Int
  email : String
  role : Role
  deriving DecidableEq

/-- The `users` and `currentUser` keys of `localStorage`; `none` is a missing
key or the value `null`. -/
structure AuthStorage where
  users : Option (List User)
  currentUser : Option Session
  deriving DecidableEq

/-- The expression `storage.get('users')||[]`. -/
def getUsers (st : AuthStorage) : List User :=
  st.users.getD []

/-- The `length` of a JavaScript string: the number of UTF-16 code units, two
for a character outside the basic plane. -/
def jsLength (str : String) : Nat :=
  (str.data.map (fun c => if c.toNat < 65536 then 1 else 2)).sum

/-- The call `email.includes('@')`. -/
def includesAt (email : String) : Bool :=
  decide ('@' ∈ email.data)

/-- The errors `register` and `login` throw, named as in the spec's taxonomy:
'Invalid email address', 'Password must be at least 6 characters', 'Email
already exists', 'Invalid email or password'. -/
inductive AuthError where
  | invalidEmail
  | weakPassword
  | duplicateEmail
  | invalidCredentials
  deriving DecidableEq

/-- The function `register`, at clock value `now`, over the platform function
`toLowerCase`: how the call ends and the storage afterwards. -/
def register (toLowerCase : String → String) (st : AuthStorage) (email password : String)
    (now : Int) : Except AuthError Session × AuthStorage :=
  if email = "" || !includesAt email then (Except.error AuthError.invalidEmail, st)
  else if jsLength password < 6 then (Except.error AuthError.weakPassword, st)
  else
    let users := getUsers st
    match users.find? (fun u => u.email == toLowerCase email) with
    | some _ => (Except.error AuthError.duplicateEmail, st)
    | none =>
      let id := now
      (Except.ok { id := id, email := toLowerCase email, role := Role.user },
        { users := some (users ++
            [{ id := id, email := toLowerCase email, password := password, role := Role.user }])
          currentUser := some { id := id, email := toLowerCase email, role := Role.user } })

/-- The function `login`. -/
def login (toLowerCase : String → String) (st : AuthStorage) (email password : String) :
    Except AuthError Session × AuthStorage :=
  let users := getUsers st
  match users.find? (fun u => toLowerCase u.email == toLowerCase email && u.password == password)
    with
  | none => (Except.error AuthError.invalidCredentials, st)
  | some user =>
    (Except.ok { id := user.id, email := user.email, role := user.role },
      { st with currentUser := some { id := user.id, email := user.email, role := user.role } })

/-- The write of the function `logout`: `storage.set('currentUser', null)`. -/
def logout (st : AuthStorage) : AuthStorage :=
  { st with currentUser := none }

/-- The demo users of `seedIfEmpty`. -/
def seedUsers : List User :=
  [{ id := 1, email := "admin@123", password := "admin123", role := Role.admin },
   { id := 2, email := "admin@abu.edu", password := "admin123", role := Role.admin },
   { id := 3, email := "student@abu.edu", password := "student123", role := Role.user }]

/-- The function `seedIfEmpty`: the users are seeded when the `users` key is
missing or holds an empty array, and a missing `auctions` key is set to the
empty array. -/
def seedIfEmpty (st : AuthStorage) (auctions : Storage) : AuthStorage × Storage :=
  let st2 : AuthStorage :=
    match st.users with
    | none => { st with users := some seedUsers }
    | some [] => { st with users := some seedUsers }
    | some (_ :: _) => st
  let auctions2 : Storage :=
    match auctions with
    | none => saveAuctions []
    | some l => some l
  (st2, auctions2)

/-- One call that writes the `users` or `currentUser` key. -/
inductive AuthOp where
  | seedIfEmpty
  | register (email password : String) (now : Int)
  | login (email password : String)
  | logout
  deriving DecidableEq

/-- The user storage after one call. A `register` or `login` that throws leaves
it as it was. -/
def AuthOp.apply (toLowerCase : String → String) (st : AuthStorage) : AuthOp → AuthStorage
  | AuthOp.seedIfEmpty => (OrjiAuction.seedIfEmpty st none).1
  | AuthOp.register email password now =>
    (OrjiAuction.register toLowerCase st email password now).2
  | AuthOp.login email password => (OrjiAuction.login toLowerCase st email password).2
  | AuthOp.logout => OrjiAuction.logout st

/-- The user storage after a sequence of calls made, in list order, on an empty
`localStorage`. -/
def runAuth (toLowerCase : String → String) (ops : List AuthOp) : AuthStorage :=
  ops.foldl (AuthOp.apply toLowerCase) { users := none, currentUser := none }

/-- The facts about `String.prototype.toLowerCase` that the user store relies
on: lower-casing twice is lower-casing once, it neither adds nor removes the
character `@`, and it leaves as it is a string made of ASCII characters other
than the letters `A` to `Z`. -/
structure LowerCaseLaws (toLowerCase : String → String) : Prop where
  idem : ∀ str, toLowerCase (toLowerCase str) = toLowerCase str
  at_iff : ∀ str, '@' ∈ (toLowerCase str).data ↔ '@' ∈ str.data
  plain : ∀ str, (∀ c ∈ str.data, c.toNat < 128 ∧ ¬ (65 ≤ c.toNat ∧ c.toNat ≤ 90)) →
    toLowerCase str = str

/-- Lower-casing of the ASCII letters only, used in examples. -/
def asciiLower (str : String) : String :=
  String.mk (str.data.map Char.toLower)

/-- Every stored email is in lower case and contains `@`. -/
def EmailsNormal (toLowerCase : String → String) (st : AuthStorage) : Prop :=
  ∀ u ∈ getUsers st, toLowerCase u.email = u.email ∧ '@' ∈ u.email.data

/-! ## Lists: the element `find` returns and its in-place update -/

theorem find?_split (p : Auction → Bool) (l : List Auction) (a : Auction)
    (h : l.find? p = some a) :
    ∃ pre post, l = pre ++ a :: post ∧ (∀ b ∈ pre, p b = false) ∧ p a = true ∧
      ∀ f, updateFirst p f l = pre ++ f a :: post := by
  induction l with
  | nil => simp at h
  | cons x xs ih =>
    by_cases hx : p x = true
    · have hxa : x = a := by simpa [List.find?, hx] using h
      subst hxa
      exact ⟨[], xs, rfl, by simp, hx, fun f => by simp [updateFirst, hx]⟩
    · have hx' : p x = false := by simpa using hx
      have h' : xs.find? p = some a := by simpa [List.find?, hx'] using h
      obtain ⟨pre, post, hl, hpre, hpa, hupd⟩ := ih h'
      refine ⟨x :: pre, post, by simp [hl], ?_, hpa, fun f => ?_⟩
      · intro b hb
        rcases List.mem_cons.mp hb with rfl | hb
        · exact hx'
        · exact hpre b hb
      · simp [updateFirst, hx', hupd f]

/-! ## Placing a bid -/

theorem JSNumber.fin_le_fin (a b : ℚ) : (JSNumber.fin a).le (JSNumber.fin b) = decide (a ≤ b) :=
  rfl

theorem fin_le_toNumber_false (q : ℚ) (v : Option ℚ) (hpos : 0 < q)
    (hgt : ∀ p, v = some p → p < q) : (JSNumber.fin q).le (toNumber v) = false := by
  cases v with
  | none => simpa [toNumber, JSNumber.fin_le_fin] using hpos
  | some p => simpa [toNumber, JSNumber.fin_le_fin] using hgt p rfl

/-- The path of `placeBid` on which no guard throws. -/
theorem placeBid_accept (s : Storage) (auctionId : Int) (userEmail : String)
    (amount : JSNumber) (now : Int) (auction : Auction)
    (hfind : (getAuctions s).find? (fun a => a.id == auctionId) = some auction)
    (hactive : auction.status = Status.active)
    (hnan : amount.isNaN = false)
    (hzero : amount.le (JSNumber.fin 0) = false)
    (hprice : amount.le (toNumber auction.currentPrice) = false) :
    placeBid s auctionId userEmail amount now =
      (Except.ok (), saveAuctions
        (updateFirst (fun a => a.id == auctionId) (applyBid userEmail amount now)
          (getAuctions s))) := by
  unfold placeBid
  simp only [hfind]
  rw [if_neg (by simp [hactive]), if_neg (by simp [hnan, hzero]), if_neg (by simp [hprice])]

/-- C1: when `find` returns an auction for the id, that auction is active and
the amount is a positive number strictly greater than its `currentPrice`,
`placeBid` returns normally and the auction list read back is the prior list
with exactly that auction changed: `currentPrice` is the amount,
`highestBidder` is the bidder email and the bid `{by, amount, time: now}` is
appended at the end of `bids`. Every other field of it, every other auction,
and the order and length of the list are as before. -/
theorem placeBid_success (s : Storage) (auctionId : Int) (userEmail : String) (q : ℚ)
    (now : Int) (auction : Auction)
    (hfind : (getAuctions s).find? (fun a => a.id == auctionId) = some auction)
    (hactive : auction.status = Status.active)
    (hpos : 0 < q)
    (hgt : ∀ p, auction.currentPrice = some p → p < q) :
    ∃ pre post, getAuctions s = pre ++ auction :: post ∧ (∀ b ∈ pre, b.id ≠ auctionId) ∧
      (placeBid s auctionId userEmail (JSNumber.fin q) now).1 = Except.ok () ∧
      getAuctions (placeBid s auctionId userEmail (JSNumber.fin q) now).2 =
        pre ++ { auction with
                 currentPrice := some q
                 highestBidder := some userEmail
                 bids := auction.bids ++ [{ bidder := userEmail, amount := some q, time := now }] }
          :: post := by
  obtain ⟨pre, post, hl, hpre, _, hupd⟩ := find?_split _ _ _ hfind
  have hzero : (JSNumber.fin q).le (JSNumber.fin 0) = false := by
    simpa [JSNumber.fin_le_fin] using hpos
  have hacc := placeBid_accept s auctionId userEmail (JSNumber.fin q) now auction hfind hactive
    rfl hzero (fin_le_toNumber_false q _ hpos hgt)
  refine ⟨pre, post, hl, ?_, ?_, ?_⟩
  · intro b hb hid
    have := hpre b hb
    simp [hid] at this
  · rw [hacc]
  · rw [hacc, hupd]
    rfl

theorem placeBid_success_witness :
    (getAuctions (some [sampleAuction])).find? (fun a => a.id == 1) = some sampleAuction ∧
    sampleAuction.status = Status.active ∧ (0 : ℚ) < 1001 ∧
    ∃ pre post, getAuctions (some [sampleAuction]) = pre ++ sampleAuction :: post ∧
      (∀ b ∈ pre, b.id ≠ 1) ∧
      (placeBid (some [sampleAuction]) 1 "a@b.com" (JSNumber.fin 1001) 5).1 = Except.ok () ∧
      getAuctions (placeBid (some [sampleAuction]) 1 "a@b.com" (JSNumber.fin 1001) 5).2 =
        pre ++ { sampleAuction with
                 currentPrice := some 1001
                 highestBidder := some "a@b.com"
                 bids := sampleAuction.bids ++ [{ bidder := "a@b.com", amount := some 1001, time := 5 }] }
          :: post :=
  ⟨by decide, by decide, by decide,
    placeBid_success (some [sampleAuction]) 1 "a@b.com" 1001 5 sampleAuction (by decide)
      (by decide) (by decide)
      (by intro p hp; cases hp; decide)⟩

/-- C2: on an existing active auction, a positive amount that is less than or
equal to the auction's `currentPrice` (equality included) is rejected with
BidTooLow, the error reporting that price, and the storage is left exactly as
it was. -/
theorem placeBid_bidTooLow (s : Storage) (auctionId : Int) (userEmail : String) (q p : ℚ)
    (now : Int) (auction : Auction)
    (hfind : (getAuctions s).find? (fun a => a.id == auctionId) = some auction)
    (hactive : auction.status = Status.active)
    (hpos : 0 < q)
    (hprice : auction.currentPrice = some p)
    (hle : q ≤ p) :
    placeBid s auctionId userEmail (JSNumber.fin q) now =
      (Except.error (BidError.bidTooLow p), s) := by
  have hzero : (JSNumber.fin q).le (JSNumber.fin 0) = false := by
    simpa [JSNumber.fin_le_fin] using hpos
  have hcp : (JSNumber.fin q).le (toNumber auction.currentPrice) = true := by
    simpa [hprice, toNumber, JSNumber.fin_le_fin] using hle
  unfold placeBid
  simp only [hfind]
  rw [if_neg (by simp [hactive]), if_neg (by simp [JSNumber.isNaN, hzero]), if_pos hcp]
  simp [hprice]

theorem placeBid_bidTooLow_witness :
    (getAuctions (some [sampleAuction])).find? (fun a => a.id == 1) = some sampleAuction ∧
    sampleAuction.status = Status.active ∧ (0 : ℚ) < 1000 ∧
    sampleAuction.currentPrice = some 1000 ∧ (1000 : ℚ) ≤ 1000 ∧
    placeBid (some [sampleAuction]) 1 "a@b.com" (JSNumber.fin 1000) 5 =
      (Except.error (BidError.bidTooLow 1000), some [sampleAuction]) :=
  ⟨by decide, by decide, by decide, by decide, by decide,
    placeBid_bidTooLow (some [sampleAuction]) 1 "a@b.com" 1000 1000 5 sampleAuction (by decide)
      (by decide) (by decide) (by decide) (by decide)⟩

/-- C3: on an existing auction whose status is closed (`'ended'`), `placeBid`
is rejected with AuctionClosed for every bidder and every amount (a number of
any kind, above or below the current price), and the storage is unchanged. -/
theorem placeBid_closed (s : Storage) (auctionId : Int) (userEmail : String)
    (amount : JSNumber) (now : Int) (auction : Auction)
    (hfind : (getAuctions s).find? (fun a => a.id == auctionId) = some auction)
    (hclosed : auction.status = Status.ended) :
    placeBid s auctionId userEmail amount now = (Except.error BidError.auctionClosed, s) := by
  unfold placeBid
  simp only [hfind]
  rw [if_pos (by simp [hclosed])]

theorem placeBid_closed_witness :
    (getAuctions (some [{ sampleAuction with status := Status.ended }])).find?
        (fun a => a.id == 1) = some { sampleAuction with status := Status.ended } ∧
    ({ sampleAuction with status := Status.ended } : Auction).status = Status.ended ∧
    placeBid (some [{ sampleAuction with status := Status.ended }]) 1 "a@b.com"
        (JSNumber.fin 5000) 5 =
      (Except.error BidError.auctionClosed, some [{ sampleAuction with status := Status.ended }]) :=
  ⟨by decide, by decide,
    placeBid_closed (some [{ sampleAuction with status := Status.ended }]) 1 "a@b.com"
      (JSNumber.fin 5000) 5 { sampleAuction with status := Status.ended } (by decide)
      (by decide)⟩

/-! ## Ending an auction -/

/-- C7: `endAuction` returns true if and only if an auction with the id is
stored. When it returns true, the auction `find` returns for the id has status
closed afterwards (whatever it was before) and nothing else in the list
changes; when it returns false the storage is unchanged. -/
theorem endAuction_spec (s : Storage) (auctionId : Int) :
    ((endAuction s auctionId).1 = true ↔ ∃ a ∈ getAuctions s, a.id = auctionId) ∧
    ((endAuction s auctionId).1 = true →
      ∃ pre a post, getAuctions s = pre ++ a :: post ∧ (∀ b ∈ pre, b.id ≠ auctionId) ∧
        a.id = auctionId ∧
        getAuctions (endAuction s auctionId).2 =
          pre ++ { a with status := Status.ended } :: post) ∧
    ((endAuction s auctionId).1 = false → (endAuction s auctionId).2 = s) := by
  cases hfind : (getAuctions s).find? (fun a => a.id == auctionId) with
  | none =>
    have hres : endAuction s auctionId = (false, s) := by simp [endAuction, hfind]
    have hno : ¬ ∃ a ∈ getAuctions s, a.id = auctionId := by
      rintro ⟨a, ha, hid⟩
      have := List.find?_eq_none.mp hfind a ha
      simp [hid] at this
    simp [hres, hno]
  | some a =>
    obtain ⟨pre, post, hl, hpre, hpa, hupd⟩ := find?_split _ _ _ hfind
    have hid : a.id = auctionId := by simpa using hpa
    have hres : endAuction s auctionId =
        (true, saveAuctions (pre ++ { a with status := Status.ended } :: post)) := by
      simp [endAuction, hfind, hupd]
    refine ⟨?_, ?_, ?_⟩
    · rw [hres]
      simp only [true_iff]
      exact ⟨a, by simp [hl], hid⟩
    · intro _
      refine ⟨pre, a, post, hl, ?_, hid, by rw [hres]; rfl⟩
      intro b hb hbid
      have := hpre b hb
      simp [hbid] at this
    · rw [hres]
      simp

/-! ## Creating an auction -/

/-- C10: `createAuction` yields a storage whose auction list is the new auction
followed by all previously stored auctions in their previous order, and the new
auction has `currentPrice` equal to its `startingPrice`, `highestBidder` null,
no bids, status active, and title, description, image, start and end dates
taken from the argument. -/
theorem createAuction_spec (s : Storage) (data : AuctionData) (now : Int) :
    ∃ a, getAuctions (createAuction s data now) = a :: getAuctions s ∧
      a.currentPrice = a.startingPrice ∧ a.highestBidder = none ∧ a.bids = [] ∧
      a.status = Status.active ∧ a.title = data.title ∧ a.description = data.description ∧
      a.image = data.image ∧ a.startDate = data.startDate ∧ a.endDate = data.endDate ∧
      a.id = now ∧ a.startingPrice = data.startingPrice.orZero.toJSON :=
  ⟨_, rfl, rfl, rfl, rfl, rfl, rfl, rfl, rfl, rfl, rfl, rfl, rfl⟩

/-! ## The sweeper -/

theorem isExpired_iff (parseDate : String → Option Int) (now : Int) (a : Auction) :
    isExpired parseDate now a = true ↔
      a.status = Status.active ∧
        ∃ e t, a.endDate = some e ∧ e ≠ "" ∧ parseDate e = some t ∧ t < now := by
  unfold isExpired
  cases hd : a.endDate with
  | none => simp
  | some e =>
    cases hp : parseDate e with
    | none => simp [hp]
    | some t => simp [hp]

theorem map_eq_self_of_any_false (g : Auction → Bool) (f : Auction → Auction)
    (l : List Auction) (h : l.any g = false) :
    l.map (fun a => if g a then f a else a) = l := by
  induction l with
  | nil => rfl
  | cons x xs ih =>
    simp only [List.any_cons, Bool.or_eq_false_iff] at h
    simp [h.1, ih h.2]

/-- The list read back after a tick, whether or not the tick saved. -/
theorem getAuctions_sweepEnded (parseDate : String → Option Int) (s : Storage) (now : Int) :
    getAuctions (sweepEnded parseDate s now) =
      (getAuctions s).map
        (fun a => if isExpired parseDate now a then { a with status := Status.ended } else a) := by
  unfold sweepEnded
  by_cases hch : (getAuctions s).any (isExpired parseDate now) = true
  · simp only [hch, if_true]
    rfl
  · have hch' : (getAuctions s).any (isExpired parseDate now) = false := by simpa using hch
    simp only [hch', Bool.false_eq_true, if_false]
    exact (map_eq_self_of_any_false _ _ _ hch').symm

/-- C6: after one sweeper tick the list has the same length and order, and
the auction at each position differs from the one before the tick in its status
at most. Its status differs if and only if it was active, has a defined end
timestamp (a non-empty `endDate` that parses to a time value) and that
timestamp is strictly less than `now`; the new status is then closed. So an
auction with no end timestamp, or one equal to or later than `now`, is not
closed by the tick. -/
theorem sweepEnded_spec (parseDate : String → Option Int) (s : Storage) (now : Int) :
    (getAuctions (sweepEnded parseDate s now)).length = (getAuctions s).length ∧
    ∀ (i : Nat) (a : Auction), (getAuctions s)[i]? = some a →
      ∃ a2 : Auction, (getAuctions (sweepEnded parseDate s now))[i]? = some a2 ∧
        a2 = { a with status := a2.status } ∧
        (a2.status ≠ a.status ↔
          (a.status = Status.active ∧
            ∃ e t, a.endDate = some e ∧ e ≠ "" ∧ parseDate e = some t ∧ t < now)) ∧
        (a2.status ≠ a.status → a2.status = Status.ended) := by
  rw [getAuctions_sweepEnded]
  refine ⟨by simp, ?_⟩
  intro i a hi
  refine ⟨if isExpired parseDate now a then { a with status := Status.ended } else a, ?_, ?_⟩
  · simp [List.getElem?_map, hi]
  · by_cases hexp : isExpired parseDate now a = true
    · have hspec := (isExpired_iff parseDate now a).mp hexp
      rw [if_pos hexp]
      refine ⟨rfl, ⟨fun _ => hspec, fun _ h => ?_⟩, fun _ => rfl⟩
      have hact := hspec.1
      rw [← h] at hact
      cases hact
    · have hnot := mt (isExpired_iff parseDate now a).mpr hexp
      rw [if_neg hexp]
      exact ⟨rfl, ⟨fun h => absurd rfl h, fun h => absurd h hnot⟩, fun h => absurd rfl h⟩

/-! ## Closed is terminal -/

theorem StaysClosed.refl (a : Auction) : StaysClosed a a :=
  ⟨rfl, id⟩

theorem StaysClosed.trans {a b c : Auction} (hab : StaysClosed a b) (hbc : StaysClosed b c) :
    StaysClosed a c :=
  ⟨hbc.1.trans hab.1, fun h => hbc.2 (hab.2 h)⟩

theorem updateFirst_forall₂ (R : Auction → Auction → Prop) (p : Auction → Bool)
    (f : Auction → Auction) (hrefl : ∀ a, R a a) (hf : ∀ a, R a (f a)) (l : List Auction) :
    List.Forall₂ R l (updateFirst p f l) := by
  induction l with
  | nil => exact List.Forall₂.nil
  | cons x xs ih =>
    by_cases hx : p x = true
    · simp only [updateFirst, hx, if_true]
      exact List.Forall₂.cons (hf x) (List.forall₂_same.mpr (fun a _ => hrefl a))
    · simp only [updateFirst, hx, if_false]
      exact List.Forall₂.cons (hrefl x) ih

theorem map_forall₂ (R : Auction → Auction → Prop) (g : Auction → Auction)
    (hg : ∀ a, R a (g a)) (l : List Auction) : List.Forall₂ R l (l.map g) := by
  induction l with
  | nil => exact List.Forall₂.nil
  | cons x xs ih => exact List.Forall₂.cons (hg x) ih

/-- Position `k` counted from the oldest auction: records put in front of the
list do not move it. -/
theorem reverse_getElem?_of_forall₂ (R : Auction → Auction → Prop) (l l2 front : List Auction)
    (h : List.Forall₂ R l l2) (k : Nat) (a : Auction) (hk : l.reverse[k]? = some a) :
    ∃ a2, (front ++ l2).reverse[k]? = some a2 ∧ R a a2 := by
  have hrev : List.Forall₂ R l.reverse l2.reverse := List.forall₂_reverse_iff.mpr h
  obtain ⟨hlen, hget⟩ := List.forall₂_iff_get.mp hrev
  have hk1 : k < l.reverse.length := by
    by_contra hge
    rw [List.getElem?_eq_none (not_lt.mp hge)] at hk
    cases hk
  have hk2 : k < l2.reverse.length := hlen ▸ hk1
  refine ⟨l2.reverse.get ⟨k, hk2⟩, ?_, ?_⟩
  · rw [List.reverse_append, List.getElem?_append_left hk2, List.getElem?_eq_getElem hk2]
    rfl
  · have ha : l.reverse.get ⟨k, hk1⟩ = a := by
      rw [List.getElem?_eq_getElem hk1] at hk
      exact Option.some.inj hk
    rw [← ha]
    exact hget k hk1 hk2

/-- The storage `placeBid` leaves: the input storage when it throws, the saved
list with the found auction updated when it returns. -/
theorem placeBid_storage (s : Storage) (auctionId : Int) (userEmail : String)
    (amount : JSNumber) (now : Int) :
    ((placeBid s auctionId userEmail amount now).1 ≠ Except.ok () ∧
      (placeBid s auctionId userEmail amount now).2 = s) ∨
    ((placeBid s auctionId userEmail amount now).1 = Except.ok () ∧
      ∃ auction, (getAuctions s).find? (fun a => a.id == auctionId) = some auction ∧
        auction.status = Status.active ∧ amount.isNaN = false ∧
        amount.le (JSNumber.fin 0) = false ∧
        amount.le (toNumber auction.currentPrice) = false ∧
        (placeBid s auctionId userEmail amount now).2 =
          saveAuctions (updateFirst (fun a => a.id == auctionId)
            (applyBid userEmail amount now) (getAuctions s))) := by
  cases hfind : (getAuctions s).find? (fun a => a.id == auctionId) with
  | none =>
    unfold placeBid
    simp [hfind]
  | some auction =>
    unfold placeBid
    simp only [hfind]
    by_cases hst : auction.status = Status.active
    · rw [if_neg (by simp [hst])]
      by_cases hinv : (amount.isNaN || amount.le (JSNumber.fin 0)) = true
      · rw [if_pos hinv]
        exact Or.inl ⟨by simp, rfl⟩
      · rw [if_neg hinv]
        by_cases hlow : amount.le (toNumber auction.currentPrice) = true
        · rw [if_pos hlow]
          cases auction.currentPrice <;> exact Or.inl ⟨by simp, rfl⟩
        · rw [if_neg hlow]
          simp only [Bool.or_eq_true, not_or, Bool.not_eq_true] at hinv
          exact Or.inr ⟨rfl, auction, rfl, hst, hinv.1, hinv.2, by simpa using hlow, rfl⟩
    · rw [if_pos hst]
      exact Or.inl ⟨by simp, rfl⟩

/-- The storage `endAuction` leaves. -/
theorem endAuction_storage (s : Storage) (auctionId : Int) :
    (endAuction s auctionId).2 = s ∨
    (endAuction s auctionId).2 =
      saveAuctions (updateFirst (fun a => a.id == auctionId)
        (fun a => { a with status := Status.ended }) (getAuctions s)) := by
  cases hfind : (getAuctions s).find? (fun a => a.id == auctionId) with
  | none => simp [endAuction, hfind]
  | some auction => simp [endAuction, hfind]

/-- One call keeps every stored auction in place (counted from the oldest),
keeps its id, and keeps a closed status closed. -/
theorem apply_staysClosed (parseDate : String → Option Int) (s : Storage) (op : Op) :
    ∃ front l2, getAuctions (op.apply parseDate s) = front ++ l2 ∧
      List.Forall₂ StaysClosed (getAuctions s) l2 := by
  have hsame : List.Forall₂ StaysClosed (getAuctions s) (getAuctions s) :=
    List.forall₂_same.mpr (fun a _ => StaysClosed.refl a)
  cases op with
  | createAuction data now => exact ⟨[_], getAuctions s, rfl, hsame⟩
  | placeBid auctionId userEmail amount now =>
    refine ⟨[], getAuctions (placeBid s auctionId userEmail amount now).2, rfl, ?_⟩
    rcases placeBid_storage s auctionId userEmail amount now with h | ⟨_, _, _, _, _, _, _, h⟩
    · rw [h.2]
      exact hsame
    · rw [h]
      exact updateFirst_forall₂ StaysClosed _ (applyBid userEmail amount now) StaysClosed.refl
        (fun a => ⟨rfl, fun h => h⟩) _
  | endAuction auctionId =>
    refine ⟨[], getAuctions (endAuction s auctionId).2, rfl, ?_⟩
    rcases endAuction_storage s auctionId with h | h
    · rw [h]
      exact hsame
    · rw [h]
      exact updateFirst_forall₂ StaysClosed _ (fun a => { a with status := Status.ended })
        StaysClosed.refl (fun a => ⟨rfl, fun _ => rfl⟩) _
  | sweepEnded now =>
    refine ⟨[], getAuctions (sweepEnded parseDate s now), rfl, ?_⟩
    rw [getAuctions_sweepEnded]
    refine map_forall₂ _ _ (fun a => ?_) _
    by_cases hexp : isExpired parseDate now a = true
    · rw [if_pos hexp]
      exact ⟨rfl, fun _ => rfl⟩
    · rw [if_neg hexp]
      exact StaysClosed.refl a

theorem run_staysClosed (parseDate : String → Option Int) (ops : List Op) :
    ∀ (s : Storage) (k : Nat) (a : Auction), (getAuctions s).reverse[k]? = some a →
      ∃ a2, (getAuctions (run parseDate s ops)).reverse[k]? = some a2 ∧ StaysClosed a a2 := by
  induction ops with
  | nil => exact fun s k a hk => ⟨a, hk, StaysClosed.refl a⟩
  | cons op rest ih =>
    intro s k a hk
    obtain ⟨front, l2, heq, hall⟩ := apply_staysClosed parseDate s op
    obtain ⟨b, hb, hab⟩ := reverse_getElem?_of_forall₂ _ _ _ front hall k a hk
    rw [← heq] at hb
    obtain ⟨c, hc, hbc⟩ := ih (op.apply parseDate s) k b hb
    exact ⟨c, hc, hab.trans hbc⟩

/-- C5: closed is terminal. From any storage and for any sequence of
`createAuction`, `placeBid`, `endAuction` and sweeper calls with any arguments,
an auction whose status is closed keeps its place counted from the oldest
auction, keeps its id and has status closed in the storage after the sequence;
no call sets a status back to active. -/
theorem closed_is_terminal (parseDate : String → Option Int) (s : Storage) (ops : List Op)
    (k : Nat) (a : Auction)
    (hk : (getAuctions s).reverse[k]? = some a)
    (hclosed : a.status = Status.ended) :
    ∃ a2, (getAuctions (run parseDate s ops)).reverse[k]? = some a2 ∧ a2.id = a.id ∧
      a2.status = Status.ended := by
  obtain ⟨a2, h2, hid, hst⟩ := run_staysClosed parseDate ops s k a hk
  exact ⟨a2, h2, hid, hst hclosed⟩

theorem closed_is_terminal_witness :
    (getAuctions (some [{ sampleAuction with status := Status.ended }])).reverse[0]? =
      some { sampleAuction with status := Status.ended } ∧
    ({ sampleAuction with status := Status.ended } : Auction).status = Status.ended ∧
    ∃ a2, (getAuctions (run sampleParse (some [{ sampleAuction with status := Status.ended }])
        [Op.placeBid 1 "a@b.com" (JSNumber.fin 5000) 7, Op.createAuction sampleData 8,
          Op.sweepEnded 200, Op.endAuction 1])).reverse[0]? = some a2 ∧
      a2.id = ({ sampleAuction with status := Status.ended } : Auction).id ∧
      a2.status = Status.ended :=
  ⟨by decide, by decide,
    closed_is_terminal sampleParse (some [{ sampleAuction with status := Status.ended }])
      [Op.placeBid 1 "a@b.com" (JSNumber.fin 5000) 7, Op.createAuction sampleData 8,
        Op.sweepEnded 200, Op.endAuction 1] 0 { sampleAuction with status := Status.ended }
      (by decide) (by decide)⟩

/-! ## The amount guard -/

/-- C8, evaluated: on an active auction priced 1000, `placeBid` with the amount
`Infinity` returns normally instead of throwing InvalidAmount, and the storage
is rewritten: the bid is recorded and, `Infinity` being written to JSON as
`null`, the price read back is `null`. -/
theorem placeBid_infinity_accepted :
    placeBid (some [sampleAuction]) 1 "a@b.com" JSNumber.posInf 5 =
      (Except.ok (),
        some [{ sampleAuction with
                currentPrice := none
                highestBidder := some "a@b.com"
                bids := [{ bidder := "a@b.com", amount := none, time := 5 }] }]) := by
  decide

/-- On every active auction `find` returns, `Infinity` passes all three
amount guards. -/
theorem placeBid_infinity (s : Storage) (auctionId : Int) (userEmail : String) (now : Int)
    (auction : Auction)
    (hfind : (getAuctions s).find? (fun a => a.id == auctionId) = some auction)
    (hactive : auction.status = Status.active) :
    (placeBid s auctionId userEmail JSNumber.posInf now).1 = Except.ok () := by
  have hprice : JSNumber.posInf.le (toNumber auction.currentPrice) = false := by
    cases auction.currentPrice <;> rfl
  rw [placeBid_accept s auctionId userEmail JSNumber.posInf now auction hfind hactive rfl rfl
    hprice]

/-- The amounts the guard `isNaN(amount) || amount <= 0` does reject: on an
active auction, `NaN`, `-Infinity`, zero and every negative number fail with
InvalidAmount and the storage is unchanged. -/
theorem placeBid_invalidAmount (s : Storage) (auctionId : Int) (userEmail : String)
    (amount : JSNumber) (now : Int) (auction : Auction)
    (hfind : (getAuctions s).find? (fun a => a.id == auctionId) = some auction)
    (hactive : auction.status = Status.active)
    (hamount : amount = JSNumber.nan ∨ amount = JSNumber.negInf ∨
      ∃ q, amount = JSNumber.fin q ∧ q ≤ 0) :
    placeBid s auctionId userEmail amount now = (Except.error BidError.invalidAmount, s) := by
  have hinv : (amount.isNaN || amount.le (JSNumber.fin 0)) = true := by
    rcases hamount with rfl | rfl | ⟨q, rfl, hq⟩
    · rfl
    · rfl
    · simpa [JSNumber.isNaN, JSNumber.fin_le_fin] using hq
  unfold placeBid
  simp only [hfind]
  rw [if_neg (by simp [hactive]), if_pos hinv]

/-! ## Price and highest bidder against the recorded bids -/

/-- C4, evaluated: an auction is created with starting price 1000 and a bid of
2000 is accepted; a bid of `Infinity` is then accepted too, after which the
price read back is `null` (zero as a number) instead of a value at least 2000,
and it is not the greatest recorded amount, which is 2000. -/
theorem currentPrice_after_infinity :
    (getAuctions (run sampleParse none
        [Op.createAuction sampleData 1,
          Op.placeBid 1 "a@b.com" (JSNumber.fin 2000) 2])).map (fun a => a.currentPrice)
      = [some 2000] ∧
    (placeBid (run sampleParse none
        [Op.createAuction sampleData 1, Op.placeBid 1 "a@b.com" (JSNumber.fin 2000) 2])
      1 "c@d.com" JSNumber.posInf 3).1 = Except.ok () ∧
    (getAuctions (run sampleParse none
        [Op.createAuction sampleData 1, Op.placeBid 1 "a@b.com" (JSNumber.fin 2000) 2,
          Op.placeBid 1 "c@d.com" JSNumber.posInf 3])).map
        (fun a => (a.currentPrice, a.bids.map (fun b => b.amount)))
      = [(none, [some 2000, none])] := by
  decide

/-- C9, evaluated: after bids of 2000 by a first bidder, `Infinity` by a
second and 1 by a third, all accepted, the highest bidder stored is the third
bidder, whose bid of 1 is not the bid with the greatest amount. -/
theorem highestBidder_after_infinity :
    (getAuctions (run sampleParse none
        [Op.createAuction sampleData 1, Op.placeBid 1 "a@b.com" (JSNumber.fin 2000) 2,
          Op.placeBid 1 "c@d.com" JSNumber.posInf 3,
          Op.placeBid 1 "e@f.com" (JSNumber.fin 1) 4])).map
        (fun a => (a.highestBidder, a.currentPrice, a.bids.map (fun b => (b.bidder, b.amount))))
      = [(some "e@f.com", some 1,
          [("a@b.com", some 2000), ("c@d.com", none), ("e@f.com", some 1)])] := by
  decide

theorem mem_updateFirst (p : Auction → Bool) (f : Auction → Auction) (l : List Auction)
    (x : Auction) (hx : x ∈ updateFirst p f l) :
    x ∈ l ∨ ∃ b, l.find? p = some b ∧ x = f b := by
  induction l with
  | nil => simp [updateFirst] at hx
  | cons y ys ih =>
    by_cases hy : p y = true
    · simp only [updateFirst, hy, if_true, List.mem_cons] at hx
      rcases hx with rfl | hx
      · exact Or.inr ⟨y, by simp [List.find?, hy], rfl⟩
      · exact Or.inl (List.mem_cons_of_mem _ hx)
    · have hy' : p y = false := by simpa using hy
      simp only [updateFirst, hy', Bool.false_eq_true, if_false, List.mem_cons] at hx
      rcases hx with rfl | hx
      · exact Or.inl (List.mem_cons_self _ _)
      · rcases ih hx with h | ⟨b, hb, hxb⟩
        · exact Or.inl (List.mem_cons_of_mem _ h)
        · exact Or.inr ⟨b, by simp [List.find?, hy', hb], hxb⟩

theorem mem_of_find? (p : Auction → Bool) (l : List Auction) (b : Auction)
    (h : l.find? p = some b) : b ∈ l := by
  obtain ⟨pre, post, hl, _⟩ := find?_split p l b h
  simp [hl]

/-- A finite bid that passes the guards keeps the agreement of price, highest
bidder and bids. -/
theorem PriceInv.applyBid (userEmail : String) (q : ℚ) (now : Int) (a : Auction)
    (hinv : PriceInv a) (hgt : ∀ p, a.currentPrice = some p → p < q) :
    PriceInv (applyBid userEmail (JSNumber.fin q) now a) := by
  refine Or.inr ⟨a.bids, { bidder := userEmail, amount := some q, time := now }, q, rfl, rfl,
    rfl, rfl, ?_⟩
  intro b hb
  rcases hinv with ⟨hnil, _, _⟩ | ⟨earlier, last, r, hbids, hlast, hprice, _, hall⟩
  · rw [hnil] at hb
    cases hb
  · rw [hbids] at hb
    rcases List.mem_append.mp hb with hb | hb
    · obtain ⟨r2, hr2, hlt⟩ := hall b hb
      exact ⟨r2, hr2, hlt.trans (hgt r hprice)⟩
    · have hbl : b = last := by simpa using hb
      exact ⟨r, hbl ▸ hlast, hgt r hprice⟩

/-- A change of status alone keeps the agreement. -/
theorem PriceInv.withStatus (a : Auction) (st : Status) (hinv : PriceInv a) :
    PriceInv { a with status := st } :=
  hinv

/-- Every call other than a bid of `Infinity` keeps the agreement of price,
highest bidder and bids on every stored auction. -/
theorem apply_priceInv (parseDate : String → Option Int) (s : Storage) (op : Op)
    (hop : op.finiteBid) (hs : ∀ a ∈ getAuctions s, PriceInv a) :
    ∀ a ∈ getAuctions (op.apply parseDate s), PriceInv a := by
  cases op with
  | createAuction data now =>
    intro a ha
    rcases List.mem_cons.mp ha with rfl | ha
    · exact Or.inl ⟨rfl, rfl, rfl⟩
    · exact hs a ha
  | placeBid auctionId userEmail amount now =>
    intro a ha
    rcases placeBid_storage s auctionId userEmail amount now with h |
      ⟨_, auction, hfind, _, hnan, hzero, hprice, h⟩
    · rw [show Op.apply parseDate s (Op.placeBid auctionId userEmail amount now) =
        (placeBid s auctionId userEmail amount now).2 from rfl, h.2] at ha
      exact hs a ha
    · rw [show Op.apply parseDate s (Op.placeBid auctionId userEmail amount now) =
        (placeBid s auctionId userEmail amount now).2 from rfl, h] at ha
      rcases mem_updateFirst _ _ _ a ha with ha | ⟨b, hb, hab⟩
      · exact hs a ha
      · have hbeq : b = auction := Option.some.inj (hb.symm.trans hfind)
        subst hbeq
        cases amount with
        | nan => cases hnan
        | negInf => cases hzero
        | posInf => exact absurd rfl hop
        | fin q =>
          rw [hab]
          refine PriceInv.applyBid userEmail q now b (hs b (mem_of_find? _ _ b hb)) ?_
          intro p hp
          rw [hp] at hprice
          simpa [toNumber, JSNumber.fin_le_fin] using hprice
  | endAuction auctionId =>
    intro a ha
    rcases endAuction_storage s auctionId with h | h
    · rw [show Op.apply parseDate s (Op.endAuction auctionId) =
        (endAuction s auctionId).2 from rfl, h] at ha
      exact hs a ha
    · rw [show Op.apply parseDate s (Op.endAuction auctionId) =
        (endAuction s auctionId).2 from rfl, h] at ha
      rcases mem_updateFirst _ _ _ a ha with ha | ⟨b, hb, hab⟩
      · exact hs a ha
      · rw [hab]
        exact PriceInv.withStatus b Status.ended (hs b (mem_of_find? _ _ b hb))
  | sweepEnded now =>
    intro a ha
    rw [show Op.apply parseDate s (Op.sweepEnded now) = sweepEnded parseDate s now from rfl,
      getAuctions_sweepEnded] at ha
    obtain ⟨b, hb, hab⟩ := List.mem_map.mp ha
    by_cases hexp : isExpired parseDate now b = true
    · rw [if_pos hexp] at hab
      rw [← hab]
      exact PriceInv.withStatus b Status.ended (hs b hb)
    · rw [if_neg hexp] at hab
      rw [← hab]
      exact hs b hb

/-- In every storage reached from the empty one by calls none of which is a
bid of `Infinity`, every auction has its price and highest bidder in agreement
with its bids: no bid, no highest bidder and the starting price; or the last
bid carries the current price, strictly above every earlier bid, and its bidder
is the highest bidder. -/
theorem run_priceInv (parseDate : String → Option Int) (ops : List Op)
    (hops : ∀ op ∈ ops, op.finiteBid) :
    ∀ a ∈ getAuctions (run parseDate none ops), PriceInv a := by
  have hgen : ∀ (l : List Op) (s : Storage), (∀ op ∈ l, op.finiteBid) →
      (∀ a ∈ getAuctions s, PriceInv a) → ∀ a ∈ getAuctions (run parseDate s l), PriceInv a := by
    intro l
    induction l with
    | nil => exact fun s _ hs => hs
    | cons op rest ih =>
      intro s hl hs
      exact ih (op.apply parseDate s) (fun o ho => hl o (List.mem_cons_of_mem _ ho))
        (apply_priceInv parseDate s op (hl op (List.mem_cons_self _ _)) hs)
  exact hgen ops none hops (fun a ha => by cases ha)

/-! ## Auction identifiers -/

/-- C11, evaluated: two `createAuction` calls made at the same clock value, as
in the loop of the demo seeding, store two auctions with the same id, so the
stored identifiers are not unique; `endAuction` on that id then closes the
newer of the two only. -/
theorem createAuction_same_millisecond :
    (getAuctions (run sampleParse none
        [Op.createAuction sampleData 5,
          Op.createAuction { sampleData with title := "Mountain Bike" } 5])).map
        (fun a => (a.id, a.title)) = [(5, "Mountain Bike"), (5, "Laptop")] ∧
    ¬ ((getAuctions (run sampleParse none
        [Op.createAuction sampleData 5,
          Op.createAuction { sampleData with title := "Mountain Bike" } 5])).map
        (fun a => a.id)).Nodup ∧
    (getAuctions (run sampleParse none
        [Op.createAuction sampleData 5,
          Op.createAuction { sampleData with title := "Mountain Bike" } 5,
          Op.endAuction 5])).map
        (fun a => (a.title, a.status)) =
      [("Mountain Bike", Status.ended), ("Laptop", Status.active)] := by
  decide

/-- The identifiers stored by a sequence of `createAuction` calls are the clock
values of the calls, newest first, in front of the identifiers stored before. -/
theorem createAuction_ids (calls : List (AuctionData × Int)) :
    ∀ s : Storage,
      (getAuctions (calls.foldl (fun st c => createAuction st c.1 c.2) s)).map (fun a => a.id) =
        (calls.map Prod.snd).reverse ++ (getAuctions s).map (fun a => a.id) := by
  induction calls with
  | nil => intro s; simp
  | cons c rest ih =>
    intro s
    rw [List.foldl_cons, ih (createAuction s c.1 c.2)]
    simp [createAuction, getAuctions, saveAuctions]

/-- From the empty storage, the identifiers stored by a sequence of
`createAuction` calls are pairwise distinct exactly when the clock values of
the calls are. -/
theorem createAuction_ids_nodup_iff (calls : List (AuctionData × Int)) :
    ((getAuctions (calls.foldl (fun st c => createAuction st c.1 c.2) none)).map
        (fun a => a.id)).Nodup ↔ (calls.map Prod.snd).Nodup := by
  rw [createAuction_ids]
  simp [getAuctions, List.nodup_reverse]

/-! ## Validation of a new auction -/

/-- C12, refuted as stated: `createAuction` called with an empty title, no end
date and starting price 0 does not fail; it stores the auction. -/
theorem createAuction_no_validation :
    emptyData.title = "" ∧ emptyData.endDate = none ∧
    emptyData.startingPrice = JSNumber.fin 0 ∧
    getAuctions (createAuction none emptyData 7) =
      [{ id := 7, title := "", description := "", image := "", startDate := "2024-01-01",
         endDate := none, startingPrice := some 0, currentPrice := some 0,
         highestBidder := none, bids := [], status := Status.active }] := by
  decide

/-- C12, amended: the validation is done by the submit handler of the
create-auction form. When the title is empty, the end date is absent or empty,
or the price is `NaN`, `-Infinity`, zero or negative, the handler shows a
warning and leaves the storage as it was; otherwise it shows none and puts one
new auction in front of the list, which has the title of the form, not empty,
a non-empty end date and, for a finite price, that price, greater than 0, as
starting price. -/
theorem submitCreateAuction_spec (s : Storage) (fields : AuctionData) (now : Int) :
    ((fields.title = "" ∨ fields.endDate = none ∨ fields.endDate = some "" ∨
        fields.startingPrice = JSNumber.nan ∨ fields.startingPrice = JSNumber.negInf ∨
        ∃ q, fields.startingPrice = JSNumber.fin q ∧ q ≤ 0) →
      (submitCreateAuction s fields now).1 ≠ none ∧ (submitCreateAuction s fields now).2 = s) ∧
    (¬ (fields.title = "" ∨ fields.endDate = none ∨ fields.endDate = some "" ∨
        fields.startingPrice = JSNumber.nan ∨ fields.startingPrice = JSNumber.negInf ∨
        ∃ q, fields.startingPrice = JSNumber.fin q ∧ q ≤ 0) →
      (submitCreateAuction s fields now).1 = none ∧
      ∃ a, getAuctions (submitCreateAuction s fields now).2 = a :: getAuctions s ∧
        a.title = fields.title ∧ a.title ≠ "" ∧ (∃ e, a.endDate = some e ∧ e ≠ "") ∧
        ∀ q, fields.startingPrice = JSNumber.fin q → 0 < q ∧ a.startingPrice = some q) := by
  obtain ⟨title, description, image, startDate, endDate, price⟩ := fields
  constructor
  · intro h
    unfold submitCreateAuction
    simp only
    by_cases ht : title = ""
    · rw [if_pos ht]
      exact ⟨by simp, rfl⟩
    · rw [if_neg ht]
      by_cases he : (!hasEndDate endDate) = true
      · rw [if_pos he]
        exact ⟨by simp, rfl⟩
      · rw [if_neg he]
        have hp : (price.orZero).le (JSNumber.fin 0) = true := by
          rcases h with h | h | h | h | h | ⟨q, h, hq⟩
          · exact absurd h ht
          · simp only at h
            subst h
            simp [hasEndDate] at he
          · simp only at h
            subst h
            simp [hasEndDate] at he
          · simp only at h
            subst h
            decide
          · simp only at h
            subst h
            rfl
          · simp only at h
            subst h
            simpa [JSNumber.orZero, JSNumber.fin_le_fin] using hq
        rw [if_pos hp]
        exact ⟨by simp, rfl⟩
  · intro h
    simp only [not_or] at h
    obtain ⟨ht, he1, he2, hnan, hneg, hq⟩ := h
    have hend : ∃ e, endDate = some e ∧ e ≠ "" := by
      cases endDate with
      | none => exact absurd rfl he1
      | some e => exact ⟨e, rfl, fun hne => he2 (by rw [hne])⟩
    have hhas : (!hasEndDate endDate) = false := by
      obtain ⟨e, rfl, hne⟩ := hend
      simp [hasEndDate, hne]
    have hp : (price.orZero).le (JSNumber.fin 0) = false := by
      cases price with
      | nan => exact absurd rfl hnan
      | negInf => exact absurd rfl hneg
      | posInf => rfl
      | fin q =>
        have : ¬ q ≤ 0 := fun hle => hq ⟨q, rfl, hle⟩
        simpa [JSNumber.orZero, JSNumber.fin_le_fin] using this
    have hres : submitCreateAuction s ⟨title, description, image, startDate, endDate, price⟩ now =
        (none, createAuction s ⟨title, description, image, startDate, endDate, price.orZero⟩
          now) := by
      unfold submitCreateAuction
      simp only
      rw [if_neg ht, hhas, if_neg (by simp), if_neg (by simp [hp])]
    rw [hres]
    refine ⟨rfl, _, rfl, rfl, ht, hend, ?_⟩
    intro q hpq
    simp only at hpq
    subst hpq
    have : ¬ q ≤ 0 := fun hle => hq ⟨q, rfl, hle⟩
    exact ⟨not_le.mp this, rfl⟩

/-! ## Registration -/

theorem toNat_ofNat_add (n : Nat) (h1 : 65 ≤ n) (h2 : n ≤ 90) :
    (Char.ofNat (n + 32)).toNat = n + 32 := by
  interval_cases n <;> rfl

theorem toLower_eq_of_not_upper (c : Char) (h : ¬ (65 ≤ c.toNat ∧ c.toNat ≤ 90)) :
    c.toLower = c := by
  unfold Char.toLower
  simp only [ge_iff_le]
  rw [if_neg h]

theorem toLower_toNat_of_upper (c : Char) (h : 65 ≤ c.toNat ∧ c.toNat ≤ 90) :
    c.toLower.toNat = c.toNat + 32 := by
  unfold Char.toLower
  simp only [ge_iff_le]
  rw [if_pos h]
  exact toNat_ofNat_add _ h.1 h.2

theorem toLower_toLower (c : Char) : c.toLower.toLower = c.toLower := by
  by_cases h : 65 ≤ c.toNat ∧ c.toNat ≤ 90
  · apply toLower_eq_of_not_upper
    rw [toLower_toNat_of_upper c h]
    omega
  · rw [toLower_eq_of_not_upper c h, toLower_eq_of_not_upper c h]

theorem toLower_eq_at (c : Char) : c.toLower = '@' ↔ c = '@' := by
  have h64 : ('@' : Char).toNat = 64 := rfl
  by_cases h : 65 ≤ c.toNat ∧ c.toNat ≤ 90
  · constructor
    · intro hc
      have := toLower_toNat_of_upper c h
      rw [hc] at this
      omega
    · intro hc
      rw [hc] at h
      omega
  · rw [toLower_eq_of_not_upper c h]

/-- The ASCII lower-casing satisfies the laws assumed of `toLowerCase`. -/
theorem asciiLower_laws : LowerCaseLaws asciiLower where
  idem := by
    intro str
    simp [asciiLower, List.map_map, Function.comp_def, toLower_toLower]
  at_iff := by
    intro str
    simp [asciiLower, toLower_eq_at]
  plain := by
    intro str h
    have hmap : str.data.map Char.toLower = str.data := by
      conv_rhs => rw [← List.map_id str.data]
      exact List.map_congr_left (fun c hc => toLower_eq_of_not_upper c (h c hc).2)
    simp [asciiLower, hmap]

/-- The storage `register` leaves: the input storage when it throws, and when
it returns the email contains `@` and one user is appended. -/
theorem register_storage (toLowerCase : String → String) (st : AuthStorage)
    (email password : String) (now : Int) :
    (register toLowerCase st email password now).2 = st ∨
    ('@' ∈ email.data ∧
      getUsers (register toLowerCase st email password now).2 =
        getUsers st ++
          [{ id := now, email := toLowerCase email, password := password, role := Role.user }]) := by
  unfold register
  by_cases hinv : (email = "" || !includesAt email) = true
  · rw [if_pos hinv]
    exact Or.inl rfl
  · rw [if_neg hinv]
    by_cases hlen : jsLength password < 6
    · rw [if_pos hlen]
      exact Or.inl rfl
    · rw [if_neg hlen]
      cases hfind : (getUsers st).find? (fun u => u.email == toLowerCase email) with
      | some u =>
        simp only [hfind]
        exact Or.inl trivial
      | none =>
        simp only [hfind]
        refine Or.inr ⟨?_, rfl⟩
        simp only [Bool.or_eq_true, not_or, Bool.not_eq_true, Bool.not_eq_false_eq_eq_true,
          includesAt, decide_eq_true_eq, Bool.not_eq_eq_eq_not, Bool.not_true,
          decide_eq_false_iff_not, not_not] at hinv
        exact hinv.2

/-- The demo users have lower-case emails containing `@`. -/
theorem seedUsers_normal (toLowerCase : String → String) (laws : LowerCaseLaws toLowerCase) :
    ∀ u ∈ seedUsers, toLowerCase u.email = u.email ∧ '@' ∈ u.email.data := by
  intro u hu
  simp only [seedUsers, List.mem_cons, List.mem_singleton, List.not_mem_nil, or_false] at hu
  rcases hu with rfl | rfl | rfl
  · exact ⟨laws.plain _ (by decide), by decide⟩
  · exact ⟨laws.plain _ (by decide), by decide⟩
  · exact ⟨laws.plain _ (by decide), by decide⟩

/-- One call keeps every stored email in lower case and with its `@`. -/
theorem apply_emailsNormal (toLowerCase : String → String) (laws : LowerCaseLaws toLowerCase)
    (st : AuthStorage) (op : AuthOp) (hst : EmailsNormal toLowerCase st) :
    EmailsNormal toLowerCase (op.apply toLowerCase st) := by
  cases op with
  | seedIfEmpty =>
    obtain ⟨users, cur⟩ := st
    cases users with
    | none => exact seedUsers_normal toLowerCase laws
    | some l =>
      cases l with
      | nil => exact seedUsers_normal toLowerCase laws
      | cons x xs => exact hst
  | register email password now =>
    intro u hu
    rcases register_storage toLowerCase st email password now with h | ⟨hat, h⟩
    · rw [show AuthOp.apply toLowerCase st (AuthOp.register email password now) =
        (register toLowerCase st email password now).2 from rfl, h] at hu
      exact hst u hu
    · rw [show AuthOp.apply toLowerCase st (AuthOp.register email password now) =
        (register toLowerCase st email password now).2 from rfl, h] at hu
      rcases List.mem_append.mp hu with hu | hu
      · exact hst u hu
      · rw [List.mem_singleton.mp hu]
        exact ⟨laws.idem email, (laws.at_iff email).mpr hat⟩
  | login email password =>
    intro u hu
    have husers : getUsers (AuthOp.apply toLowerCase st (AuthOp.login email password)) =
        getUsers st := by
      show getUsers (login toLowerCase st email password).2 = getUsers st
      cases hfind : (getUsers st).find?
        (fun u => toLowerCase u.email == toLowerCase email && u.password == password) with
      | none => simp [login, hfind]
      | some user =>
        unfold login
        simp only [hfind]
        rfl
    rw [husers] at hu
    exact hst u hu
  | logout => exact hst

/-- Every storage reached from an empty `localStorage` has its emails in lower
case and with their `@`. -/
theorem runAuth_emailsNormal (toLowerCase : String → String) (laws : LowerCaseLaws toLowerCase)
    (ops : List AuthOp) : EmailsNormal toLowerCase (runAuth toLowerCase ops) := by
  have hgen : ∀ (l : List AuthOp) (st : AuthStorage), EmailsNormal toLowerCase st →
      EmailsNormal toLowerCase (l.foldl (AuthOp.apply toLowerCase) st) := by
    intro l
    induction l with
    | nil => exact fun st hst => hst
    | cons op rest ih =>
      exact fun st hst => ih _ (apply_emailsNormal toLowerCase laws st op hst)
  exact hgen ops _ (fun u hu => by cases hu)

theorem register_valid_email (email : String) (hat : '@' ∈ email.data) :
    (email = "" || !includesAt email) = false := by
  have hne : email ≠ "" := by
    intro h
    rw [h] at hat
    cases hat
  simp [hne, includesAt, hat]

/-- The path of `register` that throws 'Email already exists'. -/
theorem register_found (toLowerCase : String → String) (st : AuthStorage)
    (email password : String) (now : Int) (u : User)
    (hat : '@' ∈ email.data) (hlen : 6 ≤ jsLength password)
    (hu : u ∈ getUsers st) (hemail : u.email = toLowerCase email) :
    register toLowerCase st email password now = (Except.error AuthError.duplicateEmail, st) := by
  unfold register
  rw [if_neg (by simp [register_valid_email email hat]), if_neg (by omega)]
  cases hfind : (getUsers st).find? (fun u => u.email == toLowerCase email) with
  | some v => simp only [hfind]
  | none =>
    have := List.find?_eq_none.mp hfind u hu
    simp [hemail] at this

/-- The path of `register` that returns. -/
theorem register_fresh (toLowerCase : String → String) (st : AuthStorage)
    (email password : String) (now : Int)
    (hat : '@' ∈ email.data) (hlen : 6 ≤ jsLength password)
    (hnew : ∀ u ∈ getUsers st, u.email ≠ toLowerCase email) :
    register toLowerCase st email password now =
      (Except.ok { id := now, email := toLowerCase email, role := Role.user },
        { users := some (getUsers st ++
            [{ id := now, email := toLowerCase email, password := password, role := Role.user }])
          currentUser := some { id := now, email := toLowerCase email, role := Role.user } }) := by
  unfold register
  rw [if_neg (by simp [register_valid_email email hat]), if_neg (by omega)]
  cases hfind : (getUsers st).find? (fun u => u.email == toLowerCase email) with
  | none => simp only [hfind]
  | some v =>
    have hv := List.find?_some hfind
    have hmem := List.mem_of_find?_eq_some hfind
    simp only [beq_iff_eq] at hv
    exact absurd hv (hnew v hmem)

/-- The path of `register` that throws 'Password must be at least 6
characters'. -/
theorem register_short (toLowerCase : String → String) (st : AuthStorage)
    (email password : String) (now : Int)
    (hat : '@' ∈ email.data) (hlen : jsLength password < 6) :
    register toLowerCase st email password now = (Except.error AuthError.weakPassword, st) := by
  unfold register
  rw [if_neg (by simp [register_valid_email email hat]), if_pos hlen]

/-- C13: in every user store reached from an empty `localStorage` by seeding,
`register`, `login` and `logout` calls, `register` with an email that equals
the email of a stored user up to letter case and a password of length at least
6 fails with DuplicateEmail and leaves the storage, so the user records, as
they were. -/
theorem register_duplicate (toLowerCase : String → String) (laws : LowerCaseLaws toLowerCase)
    (ops : List AuthOp) (u : User) (email password : String) (now : Int)
    (hu : u ∈ getUsers (runAuth toLowerCase ops))
    (hcase : toLowerCase email = toLowerCase u.email)
    (hlen : 6 ≤ jsLength password) :
    register toLowerCase (runAuth toLowerCase ops) email password now =
      (Except.error AuthError.duplicateEmail, runAuth toLowerCase ops) := by
  obtain ⟨hfix, hatu⟩ := runAuth_emailsNormal toLowerCase laws ops u hu
  have hemail : u.email = toLowerCase email := by rw [hcase, hfix]
  have hat : '@' ∈ email.data := by
    rw [hemail] at hatu
    exact (laws.at_iff email).mp hatu
  exact register_found toLowerCase _ email password now u hat hlen hu hemail

theorem register_duplicate_witness :
    ({ id := 10, email := "a@b.com", password := "secret1", role := Role.user } : User) ∈
      getUsers (runAuth asciiLower [AuthOp.seedIfEmpty, AuthOp.register "a@b.com" "secret1" 10]) ∧
    asciiLower "A@b.COM" = asciiLower "a@b.com" ∧ 6 ≤ jsLength "secret2" ∧
    register asciiLower
        (runAuth asciiLower [AuthOp.seedIfEmpty, AuthOp.register "a@b.com" "secret1" 10])
        "A@b.COM" "secret2" 11 =
      (Except.error AuthError.duplicateEmail,
        runAuth asciiLower [AuthOp.seedIfEmpty, AuthOp.register "a@b.com" "secret1" 10]) :=
  ⟨by decide, by decide, by decide,
    register_duplicate asciiLower asciiLower_laws
      [AuthOp.seedIfEmpty, AuthOp.register "a@b.com" "secret1" 10]
      { id := 10, email := "a@b.com", password := "secret1", role := Role.user }
      "A@b.COM" "secret2" 11 (by decide) (by decide) (by decide)⟩

/-- C14: for every user store and every email that contains `@` and is not
registered (no stored email equals it up to letter case), `register` fails with
WeakPassword if and only if the password has length less than 6, and then the
storage, users and session, is as it was; with length 6 or more it returns the
new user, appends it to the users with role `'user'` and sets the session to
it. -/
theorem register_weakPassword_iff (toLowerCase : String → String)
    (hidem : ∀ str, toLowerCase (toLowerCase str) = toLowerCase str)
    (st : AuthStorage) (email password : String) (now : Int)
    (hat : '@' ∈ email.data)
    (hnew : ∀ u ∈ getUsers st, toLowerCase u.email ≠ toLowerCase email) :
    ((register toLowerCase st email password now).1 = Except.error AuthError.weakPassword ↔
      jsLength password < 6) ∧
    (jsLength password < 6 → (register toLowerCase st email password now).2 = st) ∧
    (6 ≤ jsLength password →
      (register toLowerCase st email password now).1 =
        Except.ok { id := now, email := toLowerCase email, role := Role.user } ∧
      (register toLowerCase st email password now).2 =
        { users := some (getUsers st ++
            [{ id := now, email := toLowerCase email, password := password, role := Role.user }])
          currentUser := some { id := now, email := toLowerCase email, role := Role.user } }) := by
  have hnew2 : ∀ u ∈ getUsers st, u.email ≠ toLowerCase email := by
    intro u hu h
    apply hnew u hu
    rw [h, hidem]
  refine ⟨⟨fun h => ?_, fun h => ?_⟩, fun h => ?_, fun h => ?_⟩
  · by_contra hlen
    rw [register_fresh toLowerCase st email password now hat (not_lt.mp hlen) hnew2] at h
    cases h
  · rw [register_short toLowerCase st email password now hat h]
  · rw [register_short toLowerCase st email password now hat h]
  · rw [register_fresh toLowerCase st email password now hat h hnew2]
    exact ⟨rfl, rfl⟩

theorem register_weakPassword_iff_witness :
    '@' ∈ "new@abu.edu".data ∧
    ((register asciiLower { users := some seedUsers, currentUser := none }
        "new@abu.edu" "12345" 20).1 = Except.error AuthError.weakPassword ↔
      jsLength "12345" < 6) ∧
    (jsLength "12345" < 6 →
      (register asciiLower { users := some seedUsers, currentUser := none }
        "new@abu.edu" "12345" 20).2 = { users := some seedUsers, currentUser := none }) ∧
    (6 ≤ jsLength "12345" →
      (register asciiLower { users := some seedUsers, currentUser := none }
        "new@abu.edu" "12345" 20).1 =
        Except.ok { id := 20, email := asciiLower "new@abu.edu", role := Role.user } ∧
      (register asciiLower { users := some seedUsers, currentUser := none }
        "new@abu.edu" "12345" 20).2 =
        { users := some (getUsers { users := some seedUsers, currentUser := none } ++
            [{ id := 20, email := asciiLower "new@abu.edu", password := "12345",
               role := Role.user }])
          currentUser := some { id := 20, email := asciiLower "new@abu.edu",
                                role := Role.user } }) :=
  ⟨by decide,
    register_weakPassword_iff asciiLower asciiLower_laws.idem
      { users := some seedUsers, currentUser := none } "new@abu.edu" "12345" 20 (by decide)
      (by decide)⟩

/-- The boundary of C14 evaluated on the seeded store: a password of length 5
is refused, and one of length 6 registers the user and opens the session. -/
theorem register_boundary :
    register asciiLower { users := some seedUsers, currentUser := none }
        "new@abu.edu" "12345" 20 =
      (Except.error AuthError.weakPassword, { users := some seedUsers, currentUser := none }) ∧
    register asciiLower { users := some seedUsers, currentUser := none }
        "new@abu.edu" "123456" 20 =
      (Except.ok { id := 20, email := "new@abu.edu", role := Role.user },
        { users := some (seedUsers ++
            [{ id := 20, email := "new@abu.edu", password := "123456", role := Role.user }])
          currentUser := some { id := 20, email := "new@abu.edu", role := Role.user } }) := by
  decide

end OrjiAuction
